import Mathlib

/-!
Verification of the recipe-app-api repository (Django REST, app `recipe` and
app `user`) against its natural-language specification.

The relational data model (core.models: User, Tag, Ingredient, Recipe) is
embedded as Lean structures; a database state is a `Store` of rows.  The view
layer (src/app/recipe/views.py) is embedded as pure functions over a `Store`;
framework behaviour that the views declare (TokenAuthentication +
IsAuthenticated giving 401 to unauthenticated requests) is embedded in the
endpoint wrappers.  Serializer-level code of this repository that is not part
of the source snapshot is modelled from the spec, as marked in doc comments.
Python's `int` builtin is embedded with its whitespace set, optional sign,
and underscore-grouped decimal digit runs (PEP 515); non-ASCII decimal digit
characters (Unicode category Nd beyond ASCII) are outside the model, and no
theorem asserts a parse failure for them.
-/

/-- core.models.User: email, password (hash abstracted as the raw string),
name; id is the primary key. Active/staff flags are irrelevant to the claims
and omitted. -/
structure User where
  id : Nat
  email : String
  password : String
  name : String
deriving DecidableEq, Repr

/-- core.models.Tag: name plus owning user foreign key. -/
structure Tag where
  id : Nat
  user : Nat
  name : String
deriving DecidableEq, Repr

/-- core.models.Ingredient: name plus owning user foreign key. -/
structure Ingredient where
  id : Nat
  user : Nat
  name : String
deriving DecidableEq, Repr

/-- core.models.Recipe: title, time_minutes, price (DecimalField, embedded as
a rational), optional image path, owning user, and the two many-to-many
join tables embedded as id lists. -/
structure Recipe where
  id : Nat
  user : Nat
  title : String
  time_minutes : Nat
  price : Rat
  image : Option String
  tags : List Nat
  ingredients : List Nat
deriving DecidableEq, Repr

/-- A database state: the four tables. -/
structure Store where
  users : List User
  tags : List Tag
  ingredients : List Ingredient
  recipes : List Recipe
deriving DecidableEq, Repr

/-! ### Lexicographic order on names and Django's `order_by('-name')` -/

/-- Lexicographic ≤ on char lists by code point; the order Django's
`order_by` uses on a name column (collation abstracted to code points). -/
def lexLe : List Char → List Char → Bool
  | [], _ => true
  | _ :: _, [] => false
  | a :: as, b :: bs =>
      if a.toNat < b.toNat then true
      else if b.toNat < a.toNat then false
      else lexLe as bs

/-- Lexicographic ≤ on strings. -/
def strLe (s t : String) : Bool := lexLe s.data t.data

theorem lexLe_total : ∀ (a b : List Char), lexLe a b = true ∨ lexLe b a = true := by
  intro a
  induction a with
  | nil => intro b; left; rfl
  | cons x xs ih =>
      intro b
      cases b with
      | nil => right; rfl
      | cons y ys =>
          simp only [lexLe]
          rcases Nat.lt_trichotomy x.toNat y.toNat with h | h | h
          · left; simp [h]
          · have hx : ¬ x.toNat < y.toNat := by omega
            have hy : ¬ y.toNat < x.toNat := by omega
            rcases ih ys with h1 | h1
            · left; simp [hx, hy, h1]
            · right; simp [hx, hy, h1]
          · right; simp [h]

theorem lexLe_trans : ∀ (a b c : List Char),
    lexLe a b = true → lexLe b c = true → lexLe a c = true := by
  intro a
  induction a with
  | nil => intro b c _ _; rfl
  | cons x xs ih =>
      intro b c hab hbc
      cases b with
      | nil => simp [lexLe] at hab
      | cons y ys =>
          cases c with
          | nil => simp [lexLe] at hbc
          | cons z zs =>
              simp only [lexLe] at hab hbc ⊢
              by_cases h1 : x.toNat < y.toNat
              · by_cases h2 : y.toNat < z.toNat
                · simp [show x.toNat < z.toNat by omega]
                · by_cases h3 : z.toNat < y.toNat
                  · simp [h2, h3] at hbc
                  · simp [show x.toNat < z.toNat by omega]
              · by_cases h4 : y.toNat < x.toNat
                · simp [h1, h4] at hab
                · by_cases h2 : y.toNat < z.toNat
                  · simp [show x.toNat < z.toNat by omega]
                  · by_cases h3 : z.toNat < y.toNat
                    · simp [h2, h3] at hbc
                    · simp only [if_neg h1, if_neg h4] at hab
                      simp only [if_neg h2, if_neg h3] at hbc
                      simp only [if_neg (show ¬ x.toNat < z.toNat by omega),
                        if_neg (show ¬ z.toNat < x.toNat by omega)]
                      exact ih ys zs hab hbc

theorem strLe_total (s t : String) : strLe s t = true ∨ strLe t s = true :=
  lexLe_total s.data t.data

theorem strLe_trans {s t u : String} (h1 : strLe s t = true) (h2 : strLe t u = true) :
    strLe s u = true :=
  lexLe_trans s.data t.data u.data h1 h2

/-- Insert into a list kept in descending order of the `key` projection. -/
def insertDescBy (key : α → String) (a : α) : List α → List α
  | [] => [a]
  | x :: xs => if strLe (key x) (key a) then a :: x :: xs else x :: insertDescBy key a xs

/-- Django's `order_by('-name')`: sort in descending name order. -/
def orderByDesc (key : α → String) : List α → List α
  | [] => []
  | x :: xs => insertDescBy key x (orderByDesc key xs)

theorem mem_insertDescBy (key : α → String) (a b : α) (l : List α) :
    b ∈ insertDescBy key a l ↔ b = a ∨ b ∈ l := by
  induction l with
  | nil => simp [insertDescBy]
  | cons x xs ih =>
      simp only [insertDescBy]
      by_cases h : strLe (key x) (key a) = true
      · simp [h]
      · simp only [if_neg h, List.mem_cons, ih]
        tauto

theorem mem_orderByDesc (key : α → String) (b : α) (l : List α) :
    b ∈ orderByDesc key l ↔ b ∈ l := by
  induction l with
  | nil => simp [orderByDesc]
  | cons x xs ih =>
      simp only [orderByDesc, mem_insertDescBy, List.mem_cons, ih]

theorem pairwise_insertDescBy (key : α → String) (a : α) (l : List α)
    (hl : l.Pairwise (fun x y => strLe (key y) (key x) = true)) :
    (insertDescBy key a l).Pairwise (fun x y => strLe (key y) (key x) = true) := by
  induction l with
  | nil => simp [insertDescBy]
  | cons x xs ih =>
      simp only [insertDescBy]
      rcases List.pairwise_cons.mp hl with ⟨hx, hxs⟩
      by_cases h : strLe (key x) (key a) = true
      · simp only [if_pos h]
        refine List.pairwise_cons.mpr ⟨?_, hl⟩
        intro y hy
        rcases List.mem_cons.mp hy with rfl | hy
        · exact h
        · exact strLe_trans (hx y hy) h
      · simp only [if_neg h]
        refine List.pairwise_cons.mpr ⟨?_, ih hxs⟩
        intro y hy
        rcases (mem_insertDescBy key a y xs).mp hy with rfl | hy
        · rcases strLe_total (key x) (key y) with h1 | h1
          · exact absurd h1 h
          · exact h1
        · exact hx y hy

theorem pairwise_orderByDesc (key : α → String) (l : List α) :
    (orderByDesc key l).Pairwise (fun x y => strLe (key y) (key x) = true) := by
  induction l with
  | nil => simp [orderByDesc]
  | cons x xs ih => exact pairwise_insertDescBy key x _ ih

/-! ### Python `int(str)` and `_params_to_ints` -/

/-- Numeric value of a list of decimal digit characters. -/
def digitsVal (ds : List Char) : Nat :=
  ds.foldl (fun n c => 10 * n + (c.toNat - 48)) 0

/-- Python's whitespace test: the characters `str.strip` and `int` skip
(CPython's Py_UNICODE_ISSPACE table). -/
def isPySpace (c : Char) : Bool :=
  c.toNat == 9 || c.toNat == 10 || c.toNat == 11 || c.toNat == 12 ||
  c.toNat == 13 || c.toNat == 28 || c.toNat == 29 || c.toNat == 30 ||
  c.toNat == 31 || c.toNat == 32 || c.toNat == 133 || c.toNat == 160 ||
  c.toNat == 5760 || (8192 ≤ c.toNat && c.toNat ≤ 8202) ||
  c.toNat == 8232 || c.toNat == 8233 || c.toNat == 8239 ||
  c.toNat == 8287 || c.toNat == 12288

/-- Python's `str.strip()`: drop whitespace from both ends. -/
def stripChars (l : List Char) : List Char :=
  ((l.dropWhile isPySpace).reverse.dropWhile isPySpace).reverse

/-- Python's `str.split(',')`: split at every comma, keeping empty segments. -/
def splitComma : List Char → List (List Char)
  | [] => [[]]
  | c :: cs =>
      if c = ',' then [] :: splitComma cs
      else
        match splitComma cs with
        | [] => [[c]]
        | seg :: rest => (c :: seg) :: rest

/-- The digit-run grammar of Python's integer literals after the optional
sign: one or more decimal digits with single underscores allowed between
digits (PEP 515), `digit (["_"] digit)*`. -/
def pyDigitRun : List Char → Bool
  | [] => false
  | [c] => c.isDigit
  | c :: c2 :: cs =>
      if c2 = '_' then c.isDigit && pyDigitRun cs
      else c.isDigit && pyDigitRun (c2 :: cs)

/-- Drop the PEP 515 grouping underscores before reading off the value. -/
def dropUnderscores (l : List Char) : List Char :=
  l.filter (fun c => !(c == '_'))

/-- Python's `int(s)` builtin on strings: strip surrounding whitespace, allow
one optional sign, then require an underscore-grouped run of decimal digits;
anything else raises `ValueError`, embedded as `none`.  Digits are modelled
on the ASCII range; Python additionally accepts non-ASCII Unicode decimal
digits, which stay outside the model. -/
def pyInt (s : String) : Option Int :=
  match stripChars s.data with
  | [] => none
  | '+' :: ds =>
      if pyDigitRun ds then some (digitsVal (dropUnderscores ds)) else none
  | '-' :: ds =>
      if pyDigitRun ds then some (-(digitsVal (dropUnderscores ds) : Int)) else none
  | ds =>
      if pyDigitRun ds then some (digitsVal (dropUnderscores ds)) else none

/-- The list comprehension of `_params_to_ints`: apply `int` to each segment
in order, propagating the first `ValueError`. -/
def pyIntEach : List String → Option (List Int)
  | [] => some []
  | s :: ss =>
      match pyInt s, pyIntEach ss with
      | some n, some ns => some (n :: ns)
      | _, _ => none

/-- `RecipeViewSet._params_to_ints` (views.py:60-62):
`[int(str_id) for str_id in qs.split(',')]`; a segment on which `int` raises
makes the whole call raise, embedded as `none`. -/
def params_to_ints (qs : String) : Option (List Int) :=
  pyIntEach ((splitComma qs.data).map String.mk)

/-! ### The view layer (src/app/recipe/views.py) -/

/-- Python truthiness of `request.query_params.get(...)`: `None` and the
empty string are falsy, any other string is truthy. -/
def truthyParam : Option String → Option String
  | none => none
  | some s => if s = "" then none else some s

/-- `BaseRecipeAttrViewSet.get_queryset` (views.py:29-31) as instantiated by
`TagViewSet`: `self.queryset.filter(user=self.request.user).order_by('-name')`.
Note: this queryset has no `assigned_only` handling. -/
def tagGetQueryset (store : Store) (u : Nat) : List Tag :=
  orderByDesc Tag.name (store.tags.filter (fun t => t.user == u))

/-- `BaseRecipeAttrViewSet.get_queryset` (views.py:29-31) as instantiated by
`IngredientViewSet`. -/
def ingredientGetQueryset (store : Store) (u : Nat) : List Ingredient :=
  orderByDesc Ingredient.name (store.ingredients.filter (fun i => i.user == u))

/-- One conditional filter step of `RecipeViewSet.get_queryset`
(views.py:74-79): if the query parameter is truthy, parse it with
`_params_to_ints` (propagating its exception) and keep the recipes having at
least one related id in the parsed set. -/
def applyAttrFilter (param : Option String) (proj : Recipe → List Nat)
    (q : List Recipe) : Option (List Recipe) :=
  match truthyParam param with
  | none => some q
  | some s =>
      match params_to_ints s with
      | none => none
      | some ids => some (q.filter (fun r => (proj r).any (fun i => ids.contains (i : Int))))

/-- `RecipeViewSet.get_queryset` (views.py:64-82): filter by the `tags`
parameter, then by the `ingredients` parameter, then by the requesting user;
the raw parameters reach `_params_to_ints` unvalidated, so a parse failure
aborts the request (`none`). -/
def recipeGetQueryset (store : Store) (u : Nat)
    (tagsParam ingredientsParam : Option String) : Option (List Recipe) :=
  (applyAttrFilter tagsParam Recipe.tags store.recipes).bind fun q1 =>
    (applyAttrFilter ingredientsParam Recipe.ingredients q1).map fun q2 =>
      q2.filter (fun r => r.user == u)

/-! ### Endpoint wrappers: authentication declared in the views

The viewsets declare `authentication_classes = (TokenAuthentication,)` and
`permission_classes = (IsAuthenticated,)` (views.py:23-24 and 57-58); the
framework answers 401 to any request without valid credentials and only then
dispatches to the viewset. A request's credentials are embedded as
`Option Nat`: `none` for absent/invalid credentials, `some u` for a token
identifying user `u`. -/

/-- GET /api/recipe/tags/ (list action of `TagViewSet`). -/
def tagListEndpoint (store : Store) (auth : Option Nat) : Nat × List Tag :=
  match auth with
  | none => (401, [])
  | some u => (200, tagGetQueryset store u)

/-- GET /api/recipe/ingredients/ (list action of `IngredientViewSet`). -/
def ingredientListEndpoint (store : Store) (auth : Option Nat) : Nat × List Ingredient :=
  match auth with
  | none => (401, [])
  | some u => (200, ingredientGetQueryset store u)

/-- GET /api/recipe/recipes/ (list action of `RecipeViewSet`); an unhandled
parse exception is embedded as `none` in the body position. -/
def recipeListEndpoint (store : Store) (auth : Option Nat)
    (tagsParam ingredientsParam : Option String) : Nat × Option (List Recipe) :=
  match auth with
  | none => (401, none)
  | some u => (200, recipeGetQueryset store u tagsParam ingredientsParam)

/-- `RecipeViewSet.upload_image` (views.py:103-136) on the addressed recipe:
`serializer.is_valid()` (the payload validates as an image, embedded as a
boolean since `RecipeImageSerializer` delegates to the framework's image
validation) decides between `save` + 200 and errors + 400. -/
def upload_image (recipe : Recipe) (payloadIsValidImage : Bool)
    (img : String) : Nat × Recipe :=
  if payloadIsValidImage then (200, { recipe with image := some img })
  else (400, recipe)

/-! ### Create and update operations

`BaseRecipeAttrViewSet.perform_create` and `RecipeViewSet.perform_create`
(views.py:35-37 and 99-101) save the validated serializer with
`user=self.request.user`; the serializers themselves (recipe/serializers.py)
are not part of the source snapshot, so their validation is modelled from the
spec. New primary keys are supplied by the caller, standing for the store's
autoincrement. -/

/-- Modelled from the spec: `TagSerializer` (recipe/serializers.py, missing
from the snapshot) validates the `name` field; per the spec's invariant
"Tag/Ingredient/Recipe names are non-empty" and the 400 the tests expect, a
blank name is rejected with 400 and nothing is stored. On success
`perform_create` (views.py:35-37) saves with the requesting user, 201. -/
def createTag (store : Store) (u : Nat) (nm : String) (newId : Nat) : Nat × Store :=
  if nm = "" then (400, store)
  else (201, { store with tags := store.tags ++ [⟨newId, u, nm⟩] })

/-- Modelled from the spec: `IngredientSerializer` (missing from the
snapshot), same validation as `createTag`. -/
def createIngredient (store : Store) (u : Nat) (nm : String) (newId : Nat) : Nat × Store :=
  if nm = "" then (400, store)
  else (201, { store with ingredients := store.ingredients ++ [⟨newId, u, nm⟩] })

/-- Does user `u` own a tag with id `tid` in the store? -/
def ownsTag (store : Store) (u : Nat) (tid : Nat) : Bool :=
  store.tags.any (fun t => t.id == tid && t.user == u)

/-- Does user `u` own an ingredient with id `iid` in the store? -/
def ownsIngredient (store : Store) (u : Nat) (iid : Nat) : Bool :=
  store.ingredients.any (fun i => i.id == iid && i.user == u)

/-- Modelled from the spec: `RecipeSerializer` create path (missing from the
snapshot). Per the spec, a recipe's title is non-empty and "a Recipe's
tags/ingredients must belong to the same owning user (enforced only by
application-level filtering)": a blank title or a tag/ingredient id not owned
by the requesting user is rejected with 400 and the store is unchanged;
otherwise `perform_create` (views.py:99-101) saves the recipe with
`user=self.request.user`, 201. -/
def createRecipe (store : Store) (u : Nat) (title : String)
    (tm : Nat) (pr : Rat) (tagIds ingredientIds : List Nat) (newId : Nat) :
    Nat × Store :=
  if title = "" then (400, store)
  else if ¬ (tagIds.all (ownsTag store u) ∧ ingredientIds.all (ownsIngredient store u)) then
    (400, store)
  else
    (201, { store with recipes :=
      store.recipes ++ [⟨newId, u, title, tm, pr, none, tagIds, ingredientIds⟩] })

/-- Apply a (partial) update payload to one recipe row. -/
def applyRecipePatch (newTitle : Option String) (newTagIds newIngredientIds : Option (List Nat))
    (r : Recipe) : Recipe :=
  { r with
    title := newTitle.getD r.title
    tags := newTagIds.getD r.tags
    ingredients := newIngredientIds.getD r.ingredients }

/-- Modelled from the spec: `RecipeSerializer` update path (missing from the
snapshot), reached through the detail route whose object lookup runs inside
`RecipeViewSet.get_queryset`'s user filter (views.py:64-82), so a recipe not
owned by the requester is 404. The same validation as on create applies to
the fields present in the payload: blank title or a tag/ingredient id not
owned by the requester is 400, store unchanged; otherwise the addressed
recipe is patched, 200. -/
def updateRecipe (store : Store) (u : Nat) (rid : Nat)
    (newTitle : Option String) (newTagIds newIngredientIds : Option (List Nat)) :
    Nat × Store :=
  if ¬ store.recipes.any (fun r => r.id == rid && r.user == u) then (404, store)
  else if (match newTitle with | some t => t == "" | none => false) then (400, store)
  else if ¬ ((newTagIds.getD []).all (ownsTag store u) ∧
             (newIngredientIds.getD []).all (ownsIngredient store u)) then (400, store)
  else
    (200, { store with recipes :=
      store.recipes.map (fun r =>
        if r.id == rid && r.user == u then
          applyRecipePatch newTitle newTagIds newIngredientIds r
        else r) })

/-! ### User app endpoints (app/user), modelled from the spec and pinned by
src/app/user/tests/test_user_api.py, the only part of that app in the
snapshot. -/

/-- Modelled from the spec: the user-create view and serializer (user app
views/serializers, missing from the snapshot). The tests pin the behaviour:
a password shorter than 5 characters is a field validation error, 400, and
no user row is written (test_password_too_short); a duplicate email is 400
(test_user_exists); otherwise the user is created, 201. -/
def createUser (store : Store) (email password nm : String) (newId : Nat) :
    Nat × Store :=
  if password.length < 5 then (400, store)
  else if store.users.any (fun us => us.email == email) then (400, store)
  else (201, { store with users := store.users ++ [⟨newId, email, password, nm⟩] })

/-- Modelled from the spec: the token-obtain view (user app, missing from the
snapshot). The spec's error-handling section says authentication failures
surface as 401, but the repository's own tests
(test_create_token_invalid_credentials, test_create_token_no_user,
test_create_token_missing_field) assert HTTP 400 whenever the credentials do
not match a stored user — the standard framework token view treats bad
credentials as a serializer validation error — so the model follows the
tests: matching credentials give 200 (with a token), anything else 400. -/
def createTokenStatus (store : Store) (email password : String) : Nat :=
  if store.users.any (fun us => us.email == email && us.password == password) then 200
  else 400

/-- Modelled from the spec: the user-profile (`me`) view (user app, missing
from the snapshot) is authentication-protected like the recipe viewsets:
401 without credentials (test_retrieve_user_unauthorized), 200 with them. -/
def meEndpointStatus (auth : Option Nat) : Nat :=
  match auth with
  | none => 401
  | some _ => 200

/-! ### Invariants -/

/-- The spec's name invariant: every stored tag/ingredient name and recipe
title is non-empty. -/
def namesNonempty (store : Store) : Prop :=
  (∀ t ∈ store.tags, t.name ≠ "") ∧
  (∀ i ∈ store.ingredients, i.name ≠ "") ∧
  (∀ r ∈ store.recipes, r.title ≠ "")

/-- The spec's ownership invariant: every tag and ingredient referenced by a
stored recipe exists and belongs to the recipe's owning user. -/
def sameOwnerInv (store : Store) : Prop :=
  ∀ r ∈ store.recipes,
    (∀ tid ∈ r.tags, ∃ t ∈ store.tags, t.id = tid ∧ t.user = r.user) ∧
    (∀ iid ∈ r.ingredients, ∃ i ∈ store.ingredients, i.id = iid ∧ i.user = r.user)

/-! ### Claim-side grammar of decimal-integer segments -/

/-- Written from the claim about `_params_to_ints`: a segment is a decimal
integer when, after stripping surrounding whitespace, it is an optionally
signed nonempty run of decimal digits; `n` is its value. -/
def decimalIntSpec (seg : String) (n : Int) : Prop :=
  ∃ ds : List Char, ds ≠ [] ∧ (∀ c ∈ ds, c.isDigit = true) ∧
    ((stripChars seg.data = ds ∧ n = (digitsVal ds : Int)) ∨
     (stripChars seg.data = '+' :: ds ∧ n = (digitsVal ds : Int)) ∨
     (stripChars seg.data = '-' :: ds ∧ n = -(digitsVal ds : Int)))

/-! ### Helper lemmas -/

theorem applyAttrFilter_noneParam (proj : Recipe → List Nat) (q : List Recipe) :
    applyAttrFilter none proj q = some q := rfl

theorem applyAttrFilter_someParam (s : String) (hs : s ≠ "") (ids : List Int)
    (hp : params_to_ints s = some ids) (proj : Recipe → List Nat) (q : List Recipe) :
    applyAttrFilter (some s) proj q =
      some (q.filter (fun r => (proj r).any (fun i => ids.contains (i : Int)))) := by
  simp [applyAttrFilter, truthyParam, hs, hp]

theorem applyAttrFilter_failParam (s : String) (hs : s ≠ "")
    (hp : params_to_ints s = none) (proj : Recipe → List Nat) (q : List Recipe) :
    applyAttrFilter (some s) proj q = none := by
  simp [applyAttrFilter, truthyParam, hs, hp]

theorem applyAttrFilter_sub {param : Option String} {proj : Recipe → List Nat}
    {q l : List Recipe} (h : applyAttrFilter param proj q = some l) :
    ∀ r ∈ l, r ∈ q := by
  unfold applyAttrFilter at h
  split at h
  · cases h; exact fun r hr => hr
  · split at h
    · cases h
    · cases h; exact fun r hr => (List.mem_filter.mp hr).1

theorem recipeGetQueryset_user {store : Store} {u : Nat}
    {tp ip : Option String} {l : List Recipe}
    (hl : recipeGetQueryset store u tp ip = some l) :
    ∀ r ∈ l, r ∈ store.recipes ∧ r.user = u := by
  unfold recipeGetQueryset at hl
  rcases h1 : applyAttrFilter tp Recipe.tags store.recipes with _ | q1 <;> rw [h1] at hl
  · simp at hl
  · simp only [Option.some_bind] at hl
    rcases h2 : applyAttrFilter ip Recipe.ingredients q1 with _ | q2 <;> rw [h2] at hl
    · simp at hl
    · simp only [Option.map_some', Option.some.injEq] at hl
      subst hl
      intro r hr
      rcases List.mem_filter.mp hr with ⟨hq2, hu⟩
      exact ⟨applyAttrFilter_sub h1 r (applyAttrFilter_sub h2 r hq2), beq_iff_eq.mp hu⟩

/-! ### Claims -/

/-- C1. Authenticated list requests to the tag, ingredient and recipe
endpoints return exactly the requesting user's records: membership in the
response is equivalent to being a stored record owned by the requester, and
on the recipe endpoint every returned record is owned by the requester for
arbitrary filter parameters as well. -/
theorem spec_C1_lists_scoped_to_owner (store : Store) (u : Nat) :
    (∀ t, t ∈ (tagListEndpoint store (some u)).2 ↔ t ∈ store.tags ∧ t.user = u) ∧
    (∀ i, i ∈ (ingredientListEndpoint store (some u)).2 ↔
      i ∈ store.ingredients ∧ i.user = u) ∧
    (∀ r, r ∈ ((recipeListEndpoint store (some u) none none).2.getD []) ↔
      r ∈ store.recipes ∧ r.user = u) ∧
    (∀ tp ip l, (recipeListEndpoint store (some u) tp ip).2 = some l →
      ∀ r ∈ l, r ∈ store.recipes ∧ r.user = u) := by
  refine ⟨?_, ?_, ?_, ?_⟩
  · intro t
    simp [tagListEndpoint, tagGetQueryset, mem_orderByDesc, List.mem_filter]
  · intro i
    simp [ingredientListEndpoint, ingredientGetQueryset, mem_orderByDesc, List.mem_filter]
  · intro r
    have : recipeGetQueryset store u none none =
        some (store.recipes.filter (fun r => r.user == u)) := rfl
    simp [recipeListEndpoint, this, List.mem_filter]
  · intro tp ip l hl
    exact recipeGetQueryset_user hl

/-- Witness for C1: a concrete store where the other user's tag is filtered
out of the authenticated user's tag list. -/
theorem spec_C1_witness :
    (⟨1, 1, "Comfort Food"⟩ : Tag) ∈
      (tagListEndpoint ⟨[], [⟨1, 1, "Comfort Food"⟩, ⟨2, 2, "Fruity"⟩], [], []⟩ (some 1)).2 ∧
    ¬ (⟨2, 2, "Fruity"⟩ : Tag) ∈
      (tagListEndpoint ⟨[], [⟨1, 1, "Comfort Food"⟩, ⟨2, 2, "Fruity"⟩], [], []⟩ (some 1)).2 ∧
    (∀ r ∈ ([⟨7, 1, "A", 5, 3, none, [], []⟩] : List Recipe),
      r ∈ ([⟨7, 1, "A", 5, 3, none, [], []⟩] : List Recipe) ∧ r.user = 1) := by
  refine ⟨?_, ?_, ?_⟩
  · exact ((spec_C1_lists_scoped_to_owner
      ⟨[], [⟨1, 1, "Comfort Food"⟩, ⟨2, 2, "Fruity"⟩], [], []⟩ 1).1 _).mpr (by decide)
  · intro h
    have hm := ((spec_C1_lists_scoped_to_owner
      ⟨[], [⟨1, 1, "Comfort Food"⟩, ⟨2, 2, "Fruity"⟩], [], []⟩ 1).1 ⟨2, 2, "Fruity"⟩).mp h
    exact absurd hm.2 (by decide)
  · exact (spec_C1_lists_scoped_to_owner
      ⟨[], [], [], [⟨7, 1, "A", 5, 3, none, [], []⟩]⟩ 1).2.2.2 none none _ rfl

/-- C2 (code bug). The snapshot's `BaseRecipeAttrViewSet.get_queryset`
(views.py:29-31) reads no query parameter at all, so the `assigned_only`
filter the claim and the repository's own tests
(test_retrieve_tags_assigned_to_recipes, test_retrieve_ingredients_assigned_to_recipes)
demand is not implemented.  In the tests' own scenario — Breakfast assigned
to a recipe, Lunch assigned to none, request carrying `assigned_only=1` —
the tag list response still contains the unassigned tag Lunch and has two
entries where the tests require one; likewise for ingredients
(Apples assigned, Turkey not). -/
theorem spec_C2_assigned_only_not_implemented :
    (⟨2, 1, "Lunch"⟩ : Tag) ∈
      (tagListEndpoint ⟨[], [⟨1, 1, "Breakfast"⟩, ⟨2, 1, "Lunch"⟩], [],
        [⟨1, 1, "Coriander eggs on toast", 10, 5, none, [1], []⟩]⟩ (some 1)).2 ∧
    ((tagListEndpoint ⟨[], [⟨1, 1, "Breakfast"⟩, ⟨2, 1, "Lunch"⟩], [],
        [⟨1, 1, "Coriander eggs on toast", 10, 5, none, [1], []⟩]⟩ (some 1)).2).length = 2 ∧
    (⟨2, 1, "Turkey"⟩ : Ingredient) ∈
      (ingredientListEndpoint ⟨[], [], [⟨1, 1, "Apples"⟩, ⟨2, 1, "Turkey"⟩],
        [⟨1, 1, "Apple crumble", 5, 10, none, [], [1]⟩]⟩ (some 1)).2 := by
  decide

/-- C7. For an authenticated request addressing an existing owned recipe,
`upload_image` (views.py:103-136) returns 200 with the recipe updated to the
uploaded image when the payload validates as an image, 400 with the stored
recipe unchanged when it does not, and never any other status. -/
theorem spec_C7_upload_image_statuses (r : Recipe) (valid : Bool) (img : String) :
    (upload_image r valid img).1 = (if valid then 200 else 400) ∧
    (upload_image r valid img).2 =
      (if valid then { r with image := some img } else r) ∧
    ((upload_image r valid img).1 = 200 ∨ (upload_image r valid img).1 = 400) := by
  cases valid <;> simp [upload_image]

/-- C8. Authenticated tag and ingredient list responses are sorted by name in
descending lexicographic order, for every store (hence every multiset of
stored names). -/
theorem spec_C8_lists_sorted_desc (store : Store) (u : Nat) :
    ((tagListEndpoint store (some u)).2).Pairwise
      (fun a b => strLe b.name a.name = true) ∧
    ((ingredientListEndpoint store (some u)).2).Pairwise
      (fun a b => strLe b.name a.name = true) := by
  exact ⟨pairwise_orderByDesc Tag.name _, pairwise_orderByDesc Ingredient.name _⟩

/-- C3. When the recipe list request carries a `tags` (resp. `ingredients`)
query parameter that parses as a list of identifiers, the response consists
exactly of the requesting user's recipes having at least one tag
(resp. ingredient) in the parsed identifier set. -/
theorem spec_C3_recipe_list_id_filter (store : Store) (u : Nat) (s : String)
    (ids : List Int) (hs : s ≠ "") (hp : params_to_ints s = some ids) :
    (∃ l, recipeGetQueryset store u (some s) none = some l ∧
      ∀ r, r ∈ l ↔ r ∈ store.recipes ∧ r.user = u ∧
        ∃ tid ∈ r.tags, (tid : Int) ∈ ids) ∧
    (∃ l, recipeGetQueryset store u none (some s) = some l ∧
      ∀ r, r ∈ l ↔ r ∈ store.recipes ∧ r.user = u ∧
        ∃ iid ∈ r.ingredients, (iid : Int) ∈ ids) := by
  constructor
  · have h1 : recipeGetQueryset store u (some s) none =
        some ((store.recipes.filter
          (fun r => r.tags.any (fun i => ids.contains (i : Int)))).filter
            (fun r => r.user == u)) := by
      unfold recipeGetQueryset
      rw [applyAttrFilter_someParam s hs ids hp]
      rfl
    refine ⟨_, h1, ?_⟩
    intro r
    simp only [List.mem_filter, List.any_eq_true, List.contains_iff_exists_mem_beq,
      beq_iff_eq]
    constructor
    · rintro ⟨⟨hrec, i, hi, i2, hi2, rfl⟩, hu⟩
      exact ⟨hrec, hu, i, hi, hi2⟩
    · rintro ⟨hrec, hu, i, hi, hi2⟩
      exact ⟨⟨hrec, i, hi, (i : Int), hi2, rfl⟩, hu⟩
  · have h1 : recipeGetQueryset store u none (some s) =
        some ((store.recipes.filter
          (fun r => r.ingredients.any (fun i => ids.contains (i : Int)))).filter
            (fun r => r.user == u)) := by
      unfold recipeGetQueryset
      rw [applyAttrFilter_noneParam, Option.some_bind,
        applyAttrFilter_someParam s hs ids hp]
      rfl
    refine ⟨_, h1, ?_⟩
    intro r
    simp only [List.mem_filter, List.any_eq_true, List.contains_iff_exists_mem_beq,
      beq_iff_eq]
    constructor
    · rintro ⟨⟨hrec, i, hi, i2, hi2, rfl⟩, hu⟩
      exact ⟨hrec, hu, i, hi, hi2⟩
    · rintro ⟨hrec, hu, i, hi, hi2⟩
      exact ⟨⟨hrec, i, hi, (i : Int), hi2, rfl⟩, hu⟩

/-- Witness for C3: the tests' scenario — three recipes, two tagged with the
requested tag ids, one untagged — under the filter string "1, 2". -/
theorem spec_C3_witness :
    ∃ l, recipeGetQueryset
        ⟨[], [], [], [⟨1, 1, "Thai vegetable curry", 10, 5, none, [1], []⟩,
          ⟨2, 1, "Aubergine with tahini", 10, 5, none, [2], []⟩,
          ⟨3, 1, "Fish and chips", 10, 5, none, [], []⟩]⟩ 1 (some "1, 2") none =
        some l ∧
      ∀ r, r ∈ l ↔
        r ∈ (⟨[], [], [], [⟨1, 1, "Thai vegetable curry", 10, 5, none, [1], []⟩,
          ⟨2, 1, "Aubergine with tahini", 10, 5, none, [2], []⟩,
          ⟨3, 1, "Fish and chips", 10, 5, none, [], []⟩]⟩ : Store).recipes ∧
        r.user = 1 ∧ ∃ tid ∈ r.tags, (tid : Int) ∈ [(1 : Int), 2] :=
  (spec_C3_recipe_list_id_filter _ 1 "1, 2" [1, 2] (by decide) (by decide)).1

/-- C4 counterexample: the token-obtain operation given a wrong password does
not answer 401 — in the repository's own test scenario (user registered with
password top4glory, token requested with password wrong) it answers 400, as
test_create_token_invalid_credentials asserts. -/
theorem spec_C4_counterexample :
    createTokenStatus ⟨[⟨1, "test@gmail.com", "top4glory", "Test name"⟩], [], [], []⟩
      "test@gmail.com" "wrong" ≠ 401 := by
  decide

/-- C4 (amended). Requests to the protected endpoints (tags, ingredients,
recipes, user profile) without valid credentials are answered 401; the
token-obtain operation given credentials matching no stored user is answered
400 (a serializer validation failure), not 401. -/
theorem spec_C4_unauthenticated_401_token_400 (store : Store)
    (tp ip : Option String) (email password : String)
    (hbad : store.users.any
      (fun us => us.email == email && us.password == password) = false) :
    (tagListEndpoint store none).1 = 401 ∧
    (ingredientListEndpoint store none).1 = 401 ∧
    (recipeListEndpoint store none tp ip).1 = 401 ∧
    meEndpointStatus none = 401 ∧
    createTokenStatus store email password = 400 := by
  refine ⟨rfl, rfl, rfl, rfl, ?_⟩
  unfold createTokenStatus
  simp [hbad]

/-- Witness for C4 (amended), at the tests' concrete scenario. -/
theorem spec_C4_witness :
    createTokenStatus ⟨[⟨1, "test@gmail.com", "top4glory", "Test name"⟩], [], [], []⟩
      "test@gmail.com" "wrongpass" = 400 :=
  (spec_C4_unauthenticated_401_token_400
    ⟨[⟨1, "test@gmail.com", "top4glory", "Test name"⟩], [], [], []⟩ none none
    "test@gmail.com" "wrongpass" (by decide)).2.2.2.2

/-- C9. User registration with a password shorter than 5 characters is
rejected with 400 and is atomic: the store is unchanged, so if no user with
the submitted email existed before the request, none exists afterwards. -/
theorem spec_C9_short_password_rejected (store : Store)
    (email password nm : String) (nid : Nat) (hshort : password.length < 5) :
    (createUser store email password nm nid).1 = 400 ∧
    (createUser store email password nm nid).2 = store ∧
    ((∀ us ∈ store.users, us.email ≠ email) →
      ∀ us ∈ (createUser store email password nm nid).2.users, us.email ≠ email) := by
  unfold createUser
  rw [if_pos hshort]
  exact ⟨rfl, rfl, fun h => h⟩

/-- Witness for C9: the tests' payload (password "pw") against an empty
store. -/
theorem spec_C9_witness :
    (createUser ⟨[], [], [], []⟩ "test@gmail.com" "pw" "Test name" 1).1 = 400 ∧
    (createUser ⟨[], [], [], []⟩ "test@gmail.com" "pw" "Test name" 1).2 =
      ⟨[], [], [], []⟩ :=
  ⟨(spec_C9_short_password_rejected ⟨[], [], [], []⟩ "test@gmail.com" "pw"
      "Test name" 1 (by decide)).1,
   (spec_C9_short_password_rejected ⟨[], [], [], []⟩ "test@gmail.com" "pw"
      "Test name" 1 (by decide)).2.1⟩

theorem ownsTag_exists {store : Store} {u tid : Nat} (h : ownsTag store u tid = true) :
    ∃ t ∈ store.tags, t.id = tid ∧ t.user = u := by
  unfold ownsTag at h
  rcases List.any_eq_true.mp h with ⟨t, ht, hb⟩
  rcases Bool.and_eq_true_iff.mp hb with ⟨h1, h2⟩
  exact ⟨t, ht, beq_iff_eq.mp h1, beq_iff_eq.mp h2⟩

theorem ownsIngredient_exists {store : Store} {u iid : Nat}
    (h : ownsIngredient store u iid = true) :
    ∃ i ∈ store.ingredients, i.id = iid ∧ i.user = u := by
  unfold ownsIngredient at h
  rcases List.any_eq_true.mp h with ⟨i, hi, hb⟩
  rcases Bool.and_eq_true_iff.mp hb with ⟨h1, h2⟩
  exact ⟨i, hi, beq_iff_eq.mp h1, beq_iff_eq.mp h2⟩

theorem namesNonempty_createTag {store : Store} {u nid : Nat} {nm : String}
    (h : namesNonempty store) : namesNonempty (createTag store u nm nid).2 := by
  unfold createTag
  split
  · exact h
  next hnm =>
    obtain ⟨ht, hi, hr⟩ := h
    refine ⟨?_, hi, hr⟩
    intro t htm
    rcases List.mem_append.mp htm with h1 | h1
    · exact ht t h1
    · rcases List.mem_singleton.mp h1 with rfl
      exact hnm

theorem namesNonempty_createIngredient {store : Store} {u nid : Nat} {nm : String}
    (h : namesNonempty store) : namesNonempty (createIngredient store u nm nid).2 := by
  unfold createIngredient
  split
  · exact h
  next hnm =>
    obtain ⟨ht, hi, hr⟩ := h
    refine ⟨ht, ?_, hr⟩
    intro i him
    rcases List.mem_append.mp him with h1 | h1
    · exact hi i h1
    · rcases List.mem_singleton.mp h1 with rfl
      exact hnm

theorem namesNonempty_createRecipe {store : Store} {u nid tm : Nat} {pr : Rat}
    {title : String} {tids iids : List Nat} (h : namesNonempty store) :
    namesNonempty (createRecipe store u title tm pr tids iids nid).2 := by
  unfold createRecipe
  split
  next => exact h
  next ht =>
    split
    · exact h
    · obtain ⟨h1, h2, h3⟩ := h
      refine ⟨h1, h2, ?_⟩
      intro r hrm
      rcases List.mem_append.mp hrm with hm | hm
      · exact h3 r hm
      · rcases List.mem_singleton.mp hm with rfl
        exact ht

theorem namesNonempty_updateRecipe {store : Store} {u rid : Nat}
    {nt : Option String} {ntags nings : Option (List Nat)}
    (h : namesNonempty store) :
    namesNonempty (updateRecipe store u rid nt ntags nings).2 := by
  unfold updateRecipe
  split
  · exact h
  split
  · exact h
  split
  · exact h
  next hc1 hc2 hc3 =>
    obtain ⟨ht, hi, hr⟩ := h
    refine ⟨ht, hi, ?_⟩
    intro r hrm
    rcases List.mem_map.mp hrm with ⟨r0, hr0, rfl⟩
    by_cases hc : (r0.id == rid && r0.user == u) = true
    · rw [if_pos hc]
      unfold applyRecipePatch
      cases nt with
      | none => exact hr r0 hr0
      | some t0 =>
          intro hteq
          apply hc2
          simp only [Option.getD_some] at hteq
          simp [hteq]
    · rw [if_neg hc]
      exact hr r0 hr0

theorem sameOwnerInv_createTag {store : Store} {u nid : Nat} {nm : String}
    (h : sameOwnerInv store) : sameOwnerInv (createTag store u nm nid).2 := by
  unfold createTag
  split
  · exact h
  · intro r hrm
    refine ⟨?_, (h r hrm).2⟩
    intro tid htid
    rcases (h r hrm).1 tid htid with ⟨t, htm, e1, e2⟩
    exact ⟨t, List.mem_append_left _ htm, e1, e2⟩

theorem sameOwnerInv_createIngredient {store : Store} {u nid : Nat} {nm : String}
    (h : sameOwnerInv store) : sameOwnerInv (createIngredient store u nm nid).2 := by
  unfold createIngredient
  split
  · exact h
  · intro r hrm
    refine ⟨(h r hrm).1, ?_⟩
    intro iid hiid
    rcases (h r hrm).2 iid hiid with ⟨i, him, e1, e2⟩
    exact ⟨i, List.mem_append_left _ him, e1, e2⟩

theorem sameOwnerInv_createRecipe {store : Store} {u nid tm : Nat} {pr : Rat}
    {title : String} {tids iids : List Nat} (h : sameOwnerInv store) :
    sameOwnerInv (createRecipe store u title tm pr tids iids nid).2 := by
  unfold createRecipe
  split
  · exact h
  split
  · exact h
  next ht hv =>
    obtain ⟨hA, hB⟩ := not_not.mp hv
    intro r hrm
    rcases List.mem_append.mp hrm with hm | hm
    · exact h r hm
    · rcases List.mem_singleton.mp hm with rfl
      constructor
      · intro tid htid
        rcases ownsTag_exists (List.all_eq_true.mp hA tid htid) with ⟨t, htm, e1, e2⟩
        exact ⟨t, htm, e1, e2⟩
      · intro iid hiid
        rcases ownsIngredient_exists (List.all_eq_true.mp hB iid hiid) with
          ⟨i, him, e1, e2⟩
        exact ⟨i, him, e1, e2⟩

theorem sameOwnerInv_updateRecipe {store : Store} {u rid : Nat}
    {nt : Option String} {ntags nings : Option (List Nat)}
    (h : sameOwnerInv store) :
    sameOwnerInv (updateRecipe store u rid nt ntags nings).2 := by
  unfold updateRecipe
  split
  · exact h
  split
  · exact h
  split
  · exact h
  next hc1 hc2 hc3 =>
    obtain ⟨hA, hB⟩ := not_not.mp hc3
    intro r hrm
    rcases List.mem_map.mp hrm with ⟨r0, hr0, rfl⟩
    by_cases hc : (r0.id == rid && r0.user == u) = true
    · rw [if_pos hc]
      have hu : r0.user = u := beq_iff_eq.mp (Bool.and_eq_true_iff.mp hc).2
      unfold applyRecipePatch
      constructor
      · intro tid htid
        cases ntags with
        | none => exact (h r0 hr0).1 tid htid
        | some ids =>
            simp only [Option.getD_some] at hA htid
            rcases ownsTag_exists (List.all_eq_true.mp hA tid htid) with
              ⟨t, htm, e1, e2⟩
            exact ⟨t, htm, e1, by rw [hu]; exact e2⟩
      · intro iid hiid
        cases nings with
        | none => exact (h r0 hr0).2 iid hiid
        | some ids =>
            simp only [Option.getD_some] at hB hiid
            rcases ownsIngredient_exists (List.all_eq_true.mp hB iid hiid) with
              ⟨i, him, e1, e2⟩
            exact ⟨i, him, e1, by rw [hu]; exact e2⟩
    · rw [if_neg hc]
      exact h r0 hr0

/-- C5. Stored names/titles are non-empty: a create request with an empty
name (or title) answers 400 and leaves the store unchanged, and the
invariant "every stored tag/ingredient name and recipe title is non-empty"
is preserved by every create and update operation. -/
theorem spec_C5_names_nonempty_invariant (store : Store) (u nid : Nat)
    (hinv : namesNonempty store) :
    createTag store u "" nid = (400, store) ∧
    createIngredient store u "" nid = (400, store) ∧
    (∀ tm pr tids iids, createRecipe store u "" tm pr tids iids nid = (400, store)) ∧
    (∀ nm, namesNonempty (createTag store u nm nid).2) ∧
    (∀ nm, namesNonempty (createIngredient store u nm nid).2) ∧
    (∀ title tm pr tids iids,
      namesNonempty (createRecipe store u title tm pr tids iids nid).2) ∧
    (∀ rid nt ntags nings,
      namesNonempty (updateRecipe store u rid nt ntags nings).2) := by
  refine ⟨?_, ?_, ?_, ?_, ?_, ?_, ?_⟩
  · unfold createTag; rw [if_pos rfl]
  · unfold createIngredient; rw [if_pos rfl]
  · intro tm pr tids iids; unfold createRecipe; rw [if_pos rfl]
  · intro nm; exact namesNonempty_createTag hinv
  · intro nm; exact namesNonempty_createIngredient hinv
  · intro title tm pr tids iids; exact namesNonempty_createRecipe hinv
  · intro rid nt ntags nings; exact namesNonempty_updateRecipe hinv

/-- Witness for C5: the tests' invalid payload (empty name) against an empty
store, and invariant preservation across a successful create. -/
theorem spec_C5_witness :
    createTag ⟨[], [], [], []⟩ 1 "" 7 = (400, ⟨[], [], [], []⟩) ∧
    namesNonempty (createTag ⟨[], [], [], []⟩ 1 "Test tag" 7).2 :=
  ⟨(spec_C5_names_nonempty_invariant ⟨[], [], [], []⟩ 1 7
      (by simp [namesNonempty])).1,
   (spec_C5_names_nonempty_invariant ⟨[], [], [], []⟩ 1 7
      (by simp [namesNonempty])).2.2.2.1 "Test tag"⟩

/-- C6. Every state reachable through the API's recipe create and update
operations (and through tag/ingredient creation) keeps the ownership
invariant: each tag and ingredient referenced by a stored recipe belongs to
the recipe's owning user. -/
theorem spec_C6_recipe_refs_same_owner (store : Store) (u : Nat)
    (hinv : sameOwnerInv store) :
    (∀ title tm pr tids iids nid,
      sameOwnerInv (createRecipe store u title tm pr tids iids nid).2) ∧
    (∀ rid nt ntags nings,
      sameOwnerInv (updateRecipe store u rid nt ntags nings).2) ∧
    (∀ nm nid, sameOwnerInv (createTag store u nm nid).2) ∧
    (∀ nm nid, sameOwnerInv (createIngredient store u nm nid).2) := by
  refine ⟨?_, ?_, ?_, ?_⟩
  · intro title tm pr tids iids nid; exact sameOwnerInv_createRecipe hinv
  · intro rid nt ntags nings; exact sameOwnerInv_updateRecipe hinv
  · intro nm nid; exact sameOwnerInv_createTag hinv
  · intro nm nid; exact sameOwnerInv_createIngredient hinv

/-- Witness for C6: creating a recipe that references the requester's own tag
keeps the ownership invariant. -/
theorem spec_C6_witness :
    sameOwnerInv
      (createRecipe ⟨[], [⟨1, 1, "Vegan"⟩], [], []⟩ 1
        "Avocado Lime Cheescake" 60 20 [1] [] 9).2 :=
  (spec_C6_recipe_refs_same_owner ⟨[], [⟨1, 1, "Vegan"⟩], [], []⟩ 1
    (by simp [sameOwnerInv])).1 "Avocado Lime Cheescake" 60 20 [1] [] 9

theorem pyDigitRun_chars :
    ∀ (l : List Char), pyDigitRun l = true → ∀ c ∈ l, c.isDigit = true ∨ c = '_' := by
  suffices H : ∀ (k : Nat) (l : List Char), l.length ≤ k → pyDigitRun l = true →
      ∀ c ∈ l, c.isDigit = true ∨ c = '_' by
    intro l
    exact H l.length l le_rfl
  intro k
  induction k with
  | zero =>
      intro l hl _ c hc
      rw [List.length_eq_zero.mp (Nat.le_zero.mp hl)] at hc
      cases hc
  | succ k ih =>
      intro l hl h c hc
      match l with
      | [] => cases hc
      | [d] =>
          rcases List.mem_singleton.mp hc with rfl
          exact Or.inl h
      | d :: e :: cs =>
          simp only [pyDigitRun] at h
          by_cases he : e = '_'
          · rw [if_pos he] at h
            rcases Bool.and_eq_true_iff.mp h with ⟨hd, hrest⟩
            rcases List.mem_cons.mp hc with rfl | hc
            · exact Or.inl hd
            rcases List.mem_cons.mp hc with rfl | hc
            · exact Or.inr he
            · have : cs.length ≤ k := by
                simp only [List.length_cons] at hl; omega
              exact ih cs this hrest c hc
          · rw [if_neg he] at h
            rcases Bool.and_eq_true_iff.mp h with ⟨hd, hrest⟩
            rcases List.mem_cons.mp hc with rfl | hc
            · exact Or.inl hd
            · have : (e :: cs).length ≤ k := by
                simp only [List.length_cons] at hl ⊢; omega
              exact ih (e :: cs) this hrest c hc

theorem pyDigitRun_of_digits :
    ∀ (l : List Char), l ≠ [] → (∀ c ∈ l, c.isDigit = true) → pyDigitRun l = true := by
  suffices H : ∀ (k : Nat) (l : List Char), l.length ≤ k → l ≠ [] →
      (∀ c ∈ l, c.isDigit = true) → pyDigitRun l = true by
    intro l
    exact H l.length l le_rfl
  intro k
  induction k with
  | zero =>
      intro l hl hne _
      exact absurd (List.length_eq_zero.mp (Nat.le_zero.mp hl)) hne
  | succ k ih =>
      intro l hl hne hdig
      match l with
      | [] => exact absurd rfl hne
      | [d] => exact hdig d (List.mem_singleton.mpr rfl)
      | d :: e :: cs =>
          simp only [pyDigitRun]
          have he : ¬ e = '_' := by
            intro he
            have := hdig e (List.mem_cons_of_mem _ (List.mem_cons_self _ _))
            rw [he] at this
            exact absurd this (by decide)
          rw [if_neg he]
          refine Bool.and_eq_true_iff.mpr ⟨hdig d (List.mem_cons_self _ _), ?_⟩
          have hlen : (e :: cs).length ≤ k := by
            simp only [List.length_cons] at hl ⊢; omega
          exact ih (e :: cs) hlen (by simp) fun c hc => hdig c (List.mem_cons_of_mem _ hc)

theorem dropUnderscores_of_digits (l : List Char) (hdig : ∀ c ∈ l, c.isDigit = true) :
    dropUnderscores l = l := by
  induction l with
  | nil => rfl
  | cons d cs ih =>
      unfold dropUnderscores at ih ⊢
      have hd : d.isDigit = true := hdig d (List.mem_cons_self _ _)
      have hne : (d == '_') = false := by
        by_cases hb : d = '_'
        · rw [hb] at hd
          exact absurd hd (by decide)
        · simp [hb]
      rw [List.filter_cons_of_pos (by simp [hne])]
      rw [ih fun c hc => hdig c (List.mem_cons_of_mem _ hc)]

theorem pyInt_of_decimalIntSpec {seg : String} {n : Int}
    (h : decimalIntSpec seg n) : pyInt seg = some n := by
  obtain ⟨ds, hne, hdig, hcase⟩ := h
  have hrun : pyDigitRun ds = true := pyDigitRun_of_digits ds hne hdig
  have hdrop : dropUnderscores ds = ds := dropUnderscores_of_digits ds hdig
  unfold pyInt
  rcases hcase with ⟨heq0, hn⟩ | ⟨heq0, hn⟩ | ⟨heq0, hn⟩
  · split
    next heq => rw [heq0] at heq; exact absurd heq hne
    next ds2 heq =>
      rw [heq0] at heq
      have hpm : ('+' : Char) ∈ ds := heq ▸ List.mem_cons_self _ _
      exact absurd (hdig _ hpm) (by decide)
    next ds2 heq =>
      rw [heq0] at heq
      have hpm : ('-' : Char) ∈ ds := heq ▸ List.mem_cons_self _ _
      exact absurd (hdig _ hpm) (by decide)
    next _ hnil hplus hminus =>
      rw [heq0, if_pos hrun, hdrop, hn]
  · split
    next heq => rw [heq0] at heq; cases heq
    next ds2 heq =>
      rw [heq0] at heq
      injection heq with _ heq
      subst heq
      rw [if_pos hrun, hdrop, hn]
    next ds2 heq =>
      rw [heq0] at heq
      injection heq with heq _
      exact absurd heq (by decide)
    next _ hnil hplus hminus =>
      exact absurd heq0 (fun hh => hplus ds hh)
  · split
    next heq => rw [heq0] at heq; cases heq
    next ds2 heq =>
      rw [heq0] at heq
      injection heq with heq _
      exact absurd heq (by decide)
    next ds2 heq =>
      rw [heq0] at heq
      injection heq with _ heq
      subst heq
      rw [if_pos hrun, hdrop, hn]
    next _ hnil hplus hminus =>
      exact absurd heq0 (fun hh => hminus ds hh)

theorem mem_dropWhile_of_not {p : Char → Bool} {c : Char} :
    ∀ {l : List Char}, c ∈ l → p c = false → c ∈ l.dropWhile p := by
  intro l
  induction l with
  | nil => intro h _; cases h
  | cons x xs ih =>
      intro h hc
      rw [List.dropWhile_cons]
      by_cases hx : p x = true
      · rw [if_pos hx]
        rcases List.mem_cons.mp h with rfl | h
        · rw [hx] at hc; cases hc
        · exact ih h hc
      · rw [if_neg hx]
        exact h

theorem mem_stripChars_of_mem {c : Char} {l : List Char}
    (h : c ∈ l) (hc : isPySpace c = false) : c ∈ stripChars l := by
  unfold stripChars
  rw [List.mem_reverse]
  exact mem_dropWhile_of_not (List.mem_reverse.mpr (mem_dropWhile_of_not h hc)) hc

theorem pyInt_some_chars {s : String} {n : Int} (h : pyInt s = some n) :
    ∀ c ∈ stripChars s.data,
      c.isDigit = true ∨ c = '_' ∨ c = '+' ∨ c = '-' := by
  unfold pyInt at h
  split at h
  · cases h
  next ds heq =>
    by_cases hrun : pyDigitRun ds = true
    · intro c hc
      rw [heq] at hc
      rcases List.mem_cons.mp hc with rfl | hc
      · exact Or.inr (Or.inr (Or.inl rfl))
      · rcases pyDigitRun_chars ds hrun c hc with h1 | h1
        · exact Or.inl h1
        · exact Or.inr (Or.inl h1)
    · rw [if_neg hrun] at h; cases h
  next ds heq =>
    by_cases hrun : pyDigitRun ds = true
    · intro c hc
      rw [heq] at hc
      rcases List.mem_cons.mp hc with rfl | hc
      · exact Or.inr (Or.inr (Or.inr rfl))
      · rcases pyDigitRun_chars ds hrun c hc with h1 | h1
        · exact Or.inl h1
        · exact Or.inr (Or.inl h1)
    · rw [if_neg hrun] at h; cases h
  next _ hnil hplus hminus =>
    by_cases hrun : pyDigitRun (stripChars s.data) = true
    · intro c hc
      rcases pyDigitRun_chars _ hrun c hc with h1 | h1
      · exact Or.inl h1
      · exact Or.inr (Or.inl h1)
    · rw [if_neg hrun] at h; cases h

theorem pyIntEach_none_of_mem {segs : List String} {seg : String}
    (hm : seg ∈ segs) (hn : pyInt seg = none) : pyIntEach segs = none := by
  induction segs with
  | nil => cases hm
  | cons s ss ih =>
      unfold pyIntEach
      rcases List.mem_cons.mp hm with rfl | hm
      · rw [hn]
      · rw [ih hm]
        rcases pyInt s with _ | m <;> rfl

theorem pyIntEach_eq_some_iff (segs : List String) (l : List Int) :
    pyIntEach segs = some l ↔
      List.Forall₂ (fun seg n => pyInt seg = some n) segs l := by
  induction segs generalizing l with
  | nil =>
      cases l with
      | nil => simp [pyIntEach]
      | cons n ns =>
          simp only [pyIntEach]
          constructor
          · intro h; cases h
          · intro h; cases h
  | cons s ss ih =>
      cases l with
      | nil =>
          constructor
          · intro h
            unfold pyIntEach at h
            rcases h1 : pyInt s with _ | m <;> rw [h1] at h
            · cases h
            · rcases h2 : pyIntEach ss with _ | ms <;> rw [h2] at h
              · cases h
              · cases h
          · intro h; cases h
      | cons m ms =>
          constructor
          · intro h
            unfold pyIntEach at h
            rcases h1 : pyInt s with _ | m1 <;> rw [h1] at h
            · cases h
            · rcases h2 : pyIntEach ss with _ | ms1 <;> rw [h2] at h
              · cases h
              · injection h with h
                injection h with ha hb
                subst ha; subst hb
                exact List.Forall₂.cons h1 ((ih _).mp h2)
          · intro h
            rcases List.forall₂_cons.mp h with ⟨h1, h2⟩
            unfold pyIntEach
            rw [h1, (ih ms).mpr h2]

/-- C10 counterexample: `_params_to_ints` is not total only on decimal
integers and does not raise on every non-decimal segment — Python's `int`
accepts the PEP 515 underscore-grouped segment "1_0", which is not a decimal
integer in the claim's sense, parses it as 10 instead of raising, and the
recipe list request is served. -/
theorem spec_C10_counterexample :
    params_to_ints "1_0" = some [10] ∧
    (∀ n, ¬ decimalIntSpec "1_0" n) ∧
    recipeGetQueryset ⟨[], [], [], [⟨1, 1, "A", 5, 3, none, [10], []⟩]⟩ 1
      (some "1_0") none = some [⟨1, 1, "A", 5, 3, none, [10], []⟩] := by
  refine ⟨by decide, ?_, by decide⟩
  rintro n ⟨ds, hne, hdig, hcase⟩
  have hstrip : stripChars ("1_0").data = ['1', '_', '0'] := by decide
  rcases hcase with ⟨heq, _⟩ | ⟨heq, _⟩ | ⟨heq, _⟩
  · have hm : ('_' : Char) ∈ ds :=
      heq ▸ (by decide : ('_' : Char) ∈ stripChars ("1_0").data)
    exact absurd (hdig _ hm) (by decide)
  · rw [hstrip] at heq
    injection heq with h1 _
    exact absurd h1 (by decide)
  · rw [hstrip] at heq
    injection heq with h1 _
    exact absurd h1 (by decide)

/-- C10 (amended). `_params_to_ints` is total on comma-separated decimal
integers (surrounding whitespace in each segment tolerated), returning the
corresponding integer list; it raises an unhandled error on any segment that
strips to nothing (an empty or all-whitespace segment) or that contains an
ASCII character that is not a digit, underscore, sign or whitespace (for
example a letter); and the recipe list operation passes the raw
`tags`/`ingredients` query parameters to it unvalidated, so such a failure
aborts the request.  It is not total only on decimal integers: Python's
`int` also accepts underscore-grouped digit runs (see the counterexample). -/
theorem spec_C10_params_to_ints_domain :
    (∀ s l, List.Forall₂ decimalIntSpec ((splitComma s.data).map String.mk) l →
      params_to_ints s = some l) ∧
    (∀ s, (∃ seg ∈ (splitComma s.data).map String.mk,
        stripChars seg.data = [] ∨
        ∃ c ∈ seg.data, c.toNat < 128 ∧ isPySpace c = false ∧
          c.isDigit = false ∧ c ≠ '_' ∧ c ≠ '+' ∧ c ≠ '-') →
      params_to_ints s = none) ∧
    (∀ store u s ip, s ≠ "" → params_to_ints s = none →
      recipeGetQueryset store u (some s) ip = none) ∧
    (∀ store u s, s ≠ "" → params_to_ints s = none →
      recipeGetQueryset store u none (some s) = none) := by
  refine ⟨?_, ?_, ?_, ?_⟩
  · intro s l h
    unfold params_to_ints
    exact (pyIntEach_eq_some_iff _ _).mpr
      (h.imp (fun a b hab => pyInt_of_decimalIntSpec hab))
  · intro s hseg
    rcases hseg with ⟨seg, hsm, hbad⟩
    have hnone : pyInt seg = none := by
      rcases hbad with hempty | ⟨c, hcm, _, hsp, hd, hu, hp, hmn⟩
      · unfold pyInt
        rw [hempty]
      · rcases h : pyInt seg with _ | n
        · rfl
        · exfalso
          rcases pyInt_some_chars h c (mem_stripChars_of_mem hcm hsp) with
            h1 | h1 | h1 | h1
          · rw [h1] at hd; cases hd
          · exact hu h1
          · exact hp h1
          · exact hmn h1
    unfold params_to_ints
    exact pyIntEach_none_of_mem hsm hnone
  · intro store u s ip hs hp
    unfold recipeGetQueryset
    rw [applyAttrFilter_failParam s hs hp]
    rfl
  · intro store u s hs hp
    unfold recipeGetQueryset
    rw [applyAttrFilter_noneParam, Option.some_bind,
      applyAttrFilter_failParam s hs hp]
    rfl

/-- Witness for C10: the letter parameter "abc" makes the recipe list request
fail even on a well-formed store. -/
theorem spec_C10_witness :
    recipeGetQueryset ⟨[], [], [], [⟨1, 1, "A", 5, 3, none, [1], []⟩]⟩ 1
      (some "abc") none = none :=
  spec_C10_params_to_ints_domain.2.2.1
    ⟨[], [], [], [⟨1, 1, "A", 5, 3, none, [1], []⟩]⟩ 1 "abc" none
    (by decide) (by decide)
